import Mathlib

/-!
Verification development for a CHIP-8 interpreter (`src/main.rs`).

The interpreter state (`struct Cpu`) and its operations (`fetch_op`,
`decode_op`, `update_timers`, the `run` loop) are embedded shallowly:

* machine integers become `Nat` with explicit `% 2^w` where the source
  performs wrapping arithmetic (`u8` → `% 256`, `u16` → `% 65536`);
* the fixed arrays `v`, `stack`, `ram`, `vram` become total functions
  `Nat → Nat`, with the source's bounds-checked (panicking) accesses
  turned into explicit guards;
* operations that can panic (stack overflow/underflow, out-of-bounds
  `ram` access, undecodable instructions) return `Option Cpu`, `none`
  standing for the fatal abort;
* the one source of nondeterminism, `rand::random::<u8>()` in `Cxnn`,
  becomes an explicit `rnd` parameter.
-/

/-- The interpreter state, mirroring `struct Cpu` in `main.rs`. -/
structure Cpu where
  pc : Nat
  i : Nat
  v : Nat → Nat
  delay_timer : Nat
  sound_timer : Nat
  stack : Nat → Nat
  sp : Nat
  ram : Nat → Nat
  vram : Nat → Nat

/-- `Cpu::FONT_SET`: the 80-byte built-in font table. -/
def FONT_SET : List Nat :=
  [0xF0, 0x90, 0x90, 0x90, 0xF0,
   0x20, 0x60, 0x20, 0x20, 0x70,
   0xF0, 0x10, 0xF0, 0x80, 0xF0,
   0xF0, 0x10, 0xF0, 0x10, 0xF0,
   0x90, 0x90, 0xF0, 0x10, 0x10,
   0xF0, 0x80, 0xF0, 0x10, 0xF0,
   0xF0, 0x80, 0xF0, 0x90, 0xF0,
   0xF0, 0x10, 0x20, 0x40, 0x40,
   0xF0, 0x90, 0xF0, 0x90, 0xF0,
   0xF0, 0x90, 0xF0, 0x10, 0xF0,
   0xF0, 0x90, 0xF0, 0x90, 0x90,
   0xE0, 0x90, 0xE0, 0x90, 0xE0,
   0xF0, 0x80, 0x80, 0x80, 0xF0,
   0xE0, 0x90, 0x90, 0x90, 0xE0,
   0xF0, 0x80, 0xF0, 0x80, 0xF0,
   0xF0, 0x80, 0xF0, 0x80, 0x80]

/-- `Cpu::new()`: zeroed state, font preloaded at the bottom of ram,
`pc` at `PC_START = 0x200`. -/
def Cpu.new : Cpu where
  pc := 0x200
  i := 0
  v := fun _ => 0
  delay_timer := 0
  sound_timer := 0
  stack := fun _ => 0
  sp := 0
  ram := fun a => if a < 80 then FONT_SET.getD a 0 else 0
  vram := fun _ => 0

/-- `Cpu::load_rom`: copy the rom image into ram starting at `0x200`. -/
def load_rom (rom : List Nat) (s : Cpu) : Cpu :=
  { s with ram := fun a =>
      if 0x200 ≤ a ∧ a < 0x200 + rom.length then rom.getD (a - 0x200) 0 else s.ram a }

/-- `Cpu::n2u8`: `(n1 << 4 | n2) as u8`. -/
def n2u8 (n1 n2 : Nat) : Nat := (n1 <<< 4 ||| n2) % 256

/-- `Cpu::n3u16`: `(n1 << 8 | n2 << 4 | n3) as u16`. -/
def n3u16 (n1 n2 n3 : Nat) : Nat := (n1 <<< 8 ||| n2 <<< 4 ||| n3) % 65536

/-- `a as i8` for a byte `a < 256`: two's-complement reinterpretation. -/
def toI8 (a : Nat) : Int := if a < 128 then (a : Int) else (a : Int) - 256

/-- Wrapping of an `i8` arithmetic result into `[-128, 128)`
(release-mode two's-complement wrapping of `i8` subtraction). -/
def wrapI8 (z : Int) : Int := (z + 128) % 256 - 128

/-- `z as u8` for an `i8` value `z`: two's-complement reinterpretation. -/
def i8ToU8 (z : Int) : Nat := (z % 256).toNat

/-- The four nibbles of the two instruction bytes at `s.pc`,
exactly as `fetch_op` extracts them. -/
def nibblesAt (s : Cpu) : Nat × Nat × Nat × Nat :=
  ((s.ram s.pc &&& 0xF0) >>> 4, s.ram s.pc &&& 0x0F,
   (s.ram (s.pc + 1) &&& 0xF0) >>> 4, s.ram (s.pc + 1) &&& 0x0F)

/-- `Cpu::fetch_op`: read the two bytes at `pc` (panicking if the read
runs past the 4096-byte ram, hence the guard), advance `pc` by
`OP_SIZE = 2`, and return the nibbles. -/
def fetch_op (s : Cpu) : Option ((Nat × Nat × Nat × Nat) × Cpu) :=
  if s.pc + 1 < 4096 then
    some (nibblesAt s, { s with pc := (s.pc + 2) % 65536 })
  else none

/-- One sprite bit in the `Dxyn` loop body:
`(sprite[h] >> (7 - w)) & 0x01` with `sprite[h] = ram[i + h]`. -/
def spriteBit (ram : Nat → Nat) (i h w : Nat) : Nat :=
  (ram (i + h) >>> (7 - w)) &&& 1

/-- The vram index written in the `Dxyn` loop body:
`(x + w) % VRAM_WIDTH + ((y + h) % VRAM_HEIGHT) * VRAM_WIDTH`. -/
def drawPos (x y h w : Nat) : Nat :=
  (x + w) % 64 + ((y + h) % 32) * 64

/-- One iteration of the `Dxyn` double loop: accumulate the collision
flag (`v[0xF] |= vram[pos] & pix`) and xor the pixel
(`vram[pos] ^= pix`). -/
def drawStep (ram : Nat → Nat) (i x y : Nat) (acc : Nat × (Nat → Nat)) (hw : Nat × Nat) :
    Nat × (Nat → Nat) :=
  (acc.1 ||| (acc.2 (drawPos x y hw.1 hw.2) &&& spriteBit ram i hw.1 hw.2),
   Function.update acc.2 (drawPos x y hw.1 hw.2)
     (acc.2 (drawPos x y hw.1 hw.2) ^^^ spriteBit ram i hw.1 hw.2))

/-- The iteration sequence of the `Dxyn` double loop:
`h` outer over `0..n`, `w` inner over `0..8`. -/
def hwPairs (n : Nat) : List (Nat × Nat) :=
  (List.range n).flatMap fun h => (List.range 8).map fun w => (h, w)

/-- The full `Dxyn` double loop, starting from collision flag `0`
(the source sets `v[0xF] = 0` before the loop). -/
def drawRun (ram : Nat → Nat) (i x y n : Nat) (vram : Nat → Nat) : Nat × (Nat → Nat) :=
  (hwPairs n).foldl (drawStep ram i x y) (0, vram)

/-- Bitwise-or fold of a list of collision terms, the accumulated
value of `v[0xF] |= vram[pos] & pix` over the loop iterations. -/
def listOr (L : List Nat) : Nat := L.foldr (fun a b => a ||| b) 0

/-- `Cpu::decode_op`: the instruction dispatch `match`, branch for
branch.  `none` is the fatal abort: `unimplemented!` for `0nnn`,
`panic!` for an unmatched pattern, and the index-out-of-bounds panics
of the array accesses (stack overflow/underflow in `2nnn`/`00EE`, ram
accesses past 4096 in fetch/`Dxyn`/`Fx33`/`Fx55`/`Fx65`). -/
def decode_op (rnd : Nat) (op : Nat × Nat × Nat × Nat) (s : Cpu) : Option Cpu :=
  match op with
  | (a, n1, n2, n3) =>
    match a with
    | 0x0 =>
      match n1 with
      | 0x0 =>
        match n2 with
        | 0xE =>
          match n3 with
          | 0x0 => some { s with vram := fun _ => 0 }
          | 0xE =>
            if 1 ≤ s.sp ∧ s.sp - 1 < 24 then
              some { s with sp := s.sp - 1, pc := s.stack (s.sp - 1) }
            else none
          | _ => none
        | _ => none
      | _ => none
    | 0x1 => some { s with pc := n3u16 n1 n2 n3 }
    | 0x2 =>
      if s.sp < 24 then
        some { s with stack := Function.update s.stack s.sp s.pc,
                      sp := s.sp + 1, pc := n3u16 n1 n2 n3 }
      else none
    | 0x3 => some (if s.v n1 = n2u8 n2 n3 then { s with pc := (s.pc + 2) % 65536 } else s)
    | 0x4 => some (if s.v n1 ≠ n2u8 n2 n3 then { s with pc := (s.pc + 2) % 65536 } else s)
    | 0x5 =>
      match n3 with
      | 0x0 => some (if s.v n1 = s.v n2 then { s with pc := (s.pc + 2) % 65536 } else s)
      | _ => none
    | 0x6 => some { s with v := Function.update s.v n1 (n2u8 n2 n3) }
    | 0x7 => some { s with v := Function.update s.v n1 ((s.v n1 + n2u8 n2 n3) % 256) }
    | 0x8 =>
      match n3 with
      | 0x0 => some { s with v := Function.update s.v n1 (s.v n2) }
      | 0x1 => some { s with v := Function.update s.v n1 (s.v n1 ||| s.v n2) }
      | 0x2 => some { s with v := Function.update s.v n1 (s.v n1 &&& s.v n2) }
      | 0x3 => some { s with v := Function.update s.v n1 (s.v n1 ^^^ s.v n2) }
      | 0x4 =>
        let res := s.v n1 + s.v n2
        let v1 := Function.update s.v 15 (if 255 < res then 1 else 0)
        some { s with v := Function.update v1 n1 (res % 256) }
      | 0x5 =>
        let res := wrapI8 (toI8 (s.v n1) - toI8 (s.v n2))
        let v1 := Function.update s.v 15 (if res < 0 then 1 else 0)
        some { s with v := Function.update v1 n1 (i8ToU8 res) }
      | 0x6 =>
        let v1 := Function.update s.v 15 (s.v n1 &&& 0x01)
        some { s with v := Function.update v1 n1 (v1 n1 >>> 1) }
      | 0xE =>
        let v1 := Function.update s.v 15 (s.v n1 &&& 0x80)
        some { s with v := Function.update v1 n1 ((v1 n1 <<< 1) % 256) }
      | _ => none
    | 0x9 =>
      match n3 with
      | 0x0 => some (if s.v n1 ≠ s.v n2 then { s with pc := (s.pc + 2) % 65536 } else s)
      | _ => none
    | 0xA => some { s with i := n3u16 n1 n2 n3 }
    | 0xB => some { s with pc := (n3u16 n1 n2 n3 + s.v 0) % 65536 }
    | 0xC => some { s with v := Function.update s.v n1 (rnd % 256 &&& n2u8 n2 n3) }
    | 0xD =>
      if s.i + n3 ≤ 4096 then
        some { s with v := Function.update s.v 15 (drawRun s.ram s.i (s.v n1) (s.v n2) n3 s.vram).1,
                      vram := (drawRun s.ram s.i (s.v n1) (s.v n2) n3 s.vram).2 }
      else none
    | 0xE =>
      match n2 with
      | 0x9 =>
        match n3 with
        | 0xE => some s
        | _ => none
      | 0xA =>
        match n3 with
        | 0x1 => some { s with pc := (s.pc + 2) % 65536 }
        | _ => none
      | _ => none
    | 0xF =>
      match n2 with
      | 0x0 =>
        match n3 with
        | 0x7 => some { s with v := Function.update s.v n1 s.delay_timer }
        | _ => none
      | 0x1 =>
        match n3 with
        | 0x5 => some { s with delay_timer := s.v n1 }
        | 0x8 => some { s with sound_timer := s.v n1 }
        | 0xE => some { s with i := (s.i + s.v n1) % 65536 }
        | _ => none
      | 0x2 =>
        match n3 with
        | 0x9 => some { s with i := (n1 * 5) % 65536 }
        | _ => none
      | 0x3 =>
        match n3 with
        | 0x3 =>
          if s.i < 4096 ∧ (s.i + 1) % 65536 < 4096 ∧ (s.i + 2) % 65536 < 4096 then
            let r1 := Function.update s.ram s.i (s.v n1 / 100)
            let r2 := Function.update r1 ((s.i + 1) % 65536) (s.v n1 / 10 % 10)
            some { s with ram := Function.update r2 ((s.i + 2) % 65536) (s.v n1 % 10) }
          else none
        | _ => none
      | 0x5 =>
        match n3 with
        | 0x5 =>
          if s.i + n1 < 4096 then
            some { s with ram := fun a2 =>
              if s.i ≤ a2 ∧ a2 ≤ s.i + n1 then s.v (a2 - s.i) else s.ram a2 }
          else none
        | _ => none
      | 0x6 =>
        match n3 with
        | 0x5 =>
          if s.i + n1 < 4096 then
            some { s with v := fun r => if r ≤ n1 then s.ram (s.i + r) else s.v r }
          else none
        | _ => none
      | _ => none
    | _ => none

/-- One fetch-decode-execute step of the `run` loop. -/
def step (rnd : Nat) (s : Cpu) : Option Cpu :=
  match fetch_op s with
  | some (op, s1) => decode_op rnd op s1
  | none => none

/-- `Cpu::update_timers`: decrement each timer if nonzero. -/
def update_timers (s : Cpu) : Cpu :=
  let s1 := if 0 < s.delay_timer then { s with delay_timer := s.delay_timer - 1 } else s
  if 0 < s1.sound_timer then { s1 with sound_timer := s1.sound_timer - 1 } else s1

/-- One iteration of the `run` loop at loop counter `timer`:
fetch-decode-execute, then tick the timers when `timer % 10 == 0`. -/
def cycle (rnd timer : Nat) (s : Cpu) : Option Cpu :=
  (step rnd s).map fun s1 => if timer % 10 = 0 then update_timers s1 else s1

/-- `n` iterations of the `run` loop starting at loop counter `timer`,
with `rnds k` standing for the random byte drawn at loop counter `k`. -/
def runLoop (rnds : Nat → Nat) (timer n : Nat) (s : Cpu) : Option Cpu :=
  match n with
  | 0 => some s
  | Nat.succ m =>
    match cycle (rnds timer) timer s with
    | some s1 => runLoop rnds (timer + 1) m s1
    | none => none

/-- The program-counter alignment invariant: `pc` is even and so is
every live return address on the call stack. -/
def pcInv (s : Cpu) : Prop :=
  s.pc % 2 = 0 ∧ ∀ j, j < s.sp → s.stack j % 2 = 0

/-- The explicit control-transfer targets of an instruction are even:
`nnn` for `1nnn`/`2nnn`, `(nnn + v[0]) mod 2^16` for `Bnnn`; every
other instruction moves `pc` only by the fetch/skip advance of 2 or to
a saved return address, so it imposes no condition. -/
def opTargetsEven (op : Nat × Nat × Nat × Nat) (v0 : Nat) : Prop :=
  match op with
  | (a, n1, n2, n3) =>
    match a with
    | 0x1 => n3u16 n1 n2 n3 % 2 = 0
    | 0x2 => n3u16 n1 n2 n3 % 2 = 0
    | 0xB => (n3u16 n1 n2 n3 + v0) % 65536 % 2 = 0
    | _ => True

/-- Whether an instruction is `Fx15` (set delay timer) or `Fx18` (set
sound timer). -/
def isTimerSetB (op : Nat × Nat × Nat × Nat) : Bool :=
  op.1 == 0xF && op.2.2.1 == 0x1 && (op.2.2.2 == 0x5 || op.2.2.2 == 0x8)

/-- Along `n` iterations of the `run` loop, the executed instruction
is never `Fx15`/`Fx18`. -/
def noTimerSetRunB (rnds : Nat → Nat) (timer n : Nat) (s : Cpu) : Bool :=
  match n with
  | 0 => true
  | Nat.succ m =>
    !isTimerSetB (nibblesAt s) &&
      (match cycle (rnds timer) timer s with
       | some s1 => noTimerSetRunB rnds (timer + 1) m s1
       | none => true)

/-- Helper: the `8xy5` value/flag computation via `i8` casts, wrapping
subtraction and cast back to `u8`, expressed over the byte inputs:
the stored byte is the wrapped difference `(a - b) mod 256`, and the
wrapped signed difference is negative exactly when that byte is ≥ 128. -/
theorem subWrap (a b : Nat) (ha : a < 256) (hb : b < 256) :
    i8ToU8 (wrapI8 (toI8 a - toI8 b)) = (a + 256 - b) % 256 ∧
    (wrapI8 (toI8 a - toI8 b) < 0 ↔ 128 ≤ (a + 256 - b) % 256) := by
  unfold i8ToU8 wrapI8 toI8
  split_ifs <;> omega

/-- Claim C1 (corrected): executing `8xy4` stores `(a+b) mod 256` into
register x; register 15 receives the carry (1 iff the unwrapped sum
exceeds 255) only when x ≠ 15 — when x = 15 the stored sum overwrites
the carry flag, since the source writes `v[0xF]` before `v[vx]`.  All
state other than the register file is unchanged. -/
theorem C1_add_carry_amended (rnd vx vy : Nat) (s : Cpu) :
    ∃ s', decode_op rnd (0x8, vx, vy, 0x4) s = some s' ∧
      s'.v vx = (s.v vx + s.v vy) % 256 ∧
      (∀ r, s'.v r = if r = vx then (s.v vx + s.v vy) % 256
                     else if r = 15 then (if 255 < s.v vx + s.v vy then 1 else 0)
                     else s.v r) ∧
      s'.pc = s.pc ∧ s'.i = s.i ∧ s'.delay_timer = s.delay_timer ∧
      s'.sound_timer = s.sound_timer ∧ s'.stack = s.stack ∧ s'.sp = s.sp ∧
      s'.ram = s.ram ∧ s'.vram = s.vram := by
  refine ⟨_, rfl, by simp [Function.update_apply], ?_, rfl, rfl, rfl, rfl, rfl, rfl, rfl, rfl⟩
  intro r
  simp [Function.update_apply]

/-- Claim C1, counterexample to the claim as stated: with x = 15,
a = `v[15]` = 200 and b = `v[0]` = 100, the unwrapped sum 300 exceeds
255, so the claim demands `v[15] = 1`; the code leaves
`v[15] = 300 mod 256 = 44`. -/
theorem C1_counterexample :
    Option.map (fun c => c.v 15)
      (decode_op 0 (0x8, 15, 0, 0x4)
        { Cpu.new with v := fun r => if r = 15 then 200 else if r = 0 then 100 else 0 })
      = some 44 ∧ 255 < 200 + 100 ∧ (44 : Nat) ≠ 1 := by
  refine ⟨by decide, by decide, by decide⟩

/-- Claim C2 (corrected): executing `8xy5` stores the wrapped
difference `(a - b) mod 256` into register x; register 15 is set (when
x ≠ 15; for x = 15 the stored difference overwrites it) to 1 iff the
*wrapped* signed 8-bit difference is negative, i.e. iff
`(a - b) mod 256 ≥ 128` — not iff `a < b` as signed 8-bit values,
which differs on signed-overflow pairs. -/
theorem C2_sub_flag_amended (rnd vx vy : Nat) (s : Cpu)
    (ha : s.v vx < 256) (hb : s.v vy < 256) :
    ∃ s', decode_op rnd (0x8, vx, vy, 0x5) s = some s' ∧
      s'.v vx = (s.v vx + 256 - s.v vy) % 256 ∧
      (∀ r, s'.v r = if r = vx then (s.v vx + 256 - s.v vy) % 256
                     else if r = 15 then (if 128 ≤ (s.v vx + 256 - s.v vy) % 256 then 1 else 0)
                     else s.v r) ∧
      s'.pc = s.pc ∧ s'.i = s.i ∧ s'.delay_timer = s.delay_timer ∧
      s'.sound_timer = s.sound_timer ∧ s'.stack = s.stack ∧ s'.sp = s.sp ∧
      s'.ram = s.ram ∧ s'.vram = s.vram := by
  obtain ⟨h1, h2⟩ := subWrap (s.v vx) (s.v vy) ha hb
  refine ⟨_, rfl, ?_, ?_, rfl, rfl, rfl, rfl, rfl, rfl, rfl, rfl⟩
  · simp [Function.update_apply, h1]
  · intro r
    simp only [Function.update_apply, h1, h2]

/-- Claim C2, witness for the amended theorem at a = 5, b = 7
(x = 0, y = 1): register 0 receives 254 and register 15 receives 1. -/
theorem C2_sub_flag_amended_witness :
    ∃ s', decode_op 0 (0x8, 0, 1, 0x5)
        { Cpu.new with v := fun r => if r = 0 then 5 else if r = 1 then 7 else 0 } = some s' ∧
      s'.v 0 = (5 + 256 - 7) % 256 ∧
      (∀ r, s'.v r = if r = 0 then (5 + 256 - 7) % 256
                     else if r = 15 then (if 128 ≤ (5 + 256 - 7) % 256 then 1 else 0)
                     else (if r = 0 then 5 else if r = 1 then 7 else (0:Nat))) ∧
      s'.pc = 0x200 ∧ s'.i = 0 ∧ s'.delay_timer = 0 ∧ s'.sound_timer = 0 ∧
      s'.stack = (fun _ => 0) ∧ s'.sp = 0 ∧
      s'.ram = Cpu.new.ram ∧ s'.vram = (fun _ => 0) :=
  C2_sub_flag_amended 0 0 1
    { Cpu.new with v := fun r => if r = 0 then 5 else if r = 1 then 7 else 0 }
    (by decide) (by decide)

/-- Claim C2, counterexample to the claim as stated: a = 127,
b = 255 = −1 as signed, so `a < b` signed is false and the claim
demands flag 0; the signed difference 127 − (−1) = 128 wraps to −128,
and the code sets register 15 to 1. -/
theorem C2_counterexample :
    Option.map (fun c => c.v 15)
      (decode_op 0 (0x8, 0, 1, 0x5)
        { Cpu.new with v := fun r => if r = 0 then 127 else if r = 1 then 255 else 0 })
      = some 1 ∧ ¬ toI8 127 < toI8 255 := by
  refine ⟨by decide, by decide⟩

/-- Claim C5: executing `7xnn` stores `(a + nn) mod 256` into register
x, wrapping silently; every register other than x (in particular
register 15 when it is not the destination) and all other state is
unchanged, and no abort is possible. -/
theorem C5_add_immediate (rnd vx n1 n2 : Nat) (s : Cpu) :
    ∃ s', decode_op rnd (0x7, vx, n1, n2) s = some s' ∧
      s'.v vx = (s.v vx + n2u8 n1 n2) % 256 ∧
      (∀ r, s'.v r = if r = vx then (s.v vx + n2u8 n1 n2) % 256 else s.v r) ∧
      s'.pc = s.pc ∧ s'.i = s.i ∧ s'.delay_timer = s.delay_timer ∧
      s'.sound_timer = s.sound_timer ∧ s'.stack = s.stack ∧ s'.sp = s.sp ∧
      s'.ram = s.ram ∧ s'.vram = s.vram := by
  refine ⟨_, rfl, by simp, ?_, rfl, rfl, rfl, rfl, rfl, rfl, rfl, rfl⟩
  intro r
  simp [Function.update_apply]

/-- Claim C9: with no input adapter wired in, `Ex9E` (skip if key
pressed) is a strict no-op — the state is returned unchanged — and
`ExA1` (skip if key not pressed) always skips, advancing the program
counter by 2 beyond the fetch advance and changing nothing else, for
every register index x and every state. -/
theorem C9_key_skips (rnd x : Nat) (s : Cpu) :
    decode_op rnd (0xE, x, 0x9, 0xE) s = some s ∧
    decode_op rnd (0xE, x, 0xA, 0x1) s = some { s with pc := (s.pc + 2) % 65536 } :=
  ⟨rfl, rfl⟩

/-- Reduction of the `2nnn` (call) branch of `decode_op`. -/
theorem decode_call_eq (rnd n1 n2 n3 : Nat) (t : Cpu) :
    decode_op rnd (0x2, n1, n2, n3) t =
      if t.sp < 24 then
        some { t with stack := Function.update t.stack t.sp t.pc,
                      sp := t.sp + 1, pc := n3u16 n1 n2 n3 }
      else none := rfl

/-- Reduction of the `00EE` (return) branch of `decode_op`. -/
theorem decode_ret_eq (rnd : Nat) (t : Cpu) :
    decode_op rnd (0x0, 0x0, 0xE, 0xE) t =
      if 1 ≤ t.sp ∧ t.sp - 1 < 24 then
        some { t with sp := t.sp - 1, pc := t.stack (t.sp - 1) }
      else none := rfl

/-- Reduction of the `Fx33` (BCD store) branch of `decode_op`. -/
theorem decode_f33_eq (rnd vx : Nat) (s : Cpu) :
    decode_op rnd (0xF, vx, 0x3, 0x3) s =
      if s.i < 4096 ∧ (s.i + 1) % 65536 < 4096 ∧ (s.i + 2) % 65536 < 4096 then
        some { s with ram :=
          Function.update (Function.update (Function.update s.ram s.i (s.v vx / 100))
            ((s.i + 1) % 65536) (s.v vx / 10 % 10)) ((s.i + 2) % 65536) (s.v vx % 10) }
      else none := rfl

/-- Claim C7: executing `2nnn` with the call stack already holding 24
return addresses is fatal (`none`), as is `00EE` with an empty stack;
with depth < 24 a full fetch-decode step on a call instruction pushes
the post-fetch program counter `pc + 2` and jumps to `nnn`, and with
depth > 0 a return pops the most recently pushed address into the
program counter. -/
theorem C7_stack_call_return (rnd n1 n2 n3 : Nat) (s t : Cpu)
    (hpc : s.pc + 1 < 4096) (hop : nibblesAt s = (0x2, n1, n2, n3)) (hsp : s.sp < 24) :
    (∃ s', step rnd s = some s' ∧
      s'.stack s.sp = (s.pc + 2) % 65536 ∧ s'.sp = s.sp + 1 ∧
      s'.pc = n3u16 n1 n2 n3 ∧ (∀ j, j ≠ s.sp → s'.stack j = s.stack j)) ∧
    (decode_op rnd (0x2, n1, n2, n3) t =
      if t.sp < 24 then
        some { t with stack := Function.update t.stack t.sp t.pc,
                      sp := t.sp + 1, pc := n3u16 n1 n2 n3 }
      else none) ∧
    (decode_op rnd (0x0, 0x0, 0xE, 0xE) t =
      if 1 ≤ t.sp ∧ t.sp ≤ 24 then
        some { t with sp := t.sp - 1, pc := t.stack (t.sp - 1) }
      else none) := by
  refine ⟨?_, rfl, ?_⟩
  · have hf : fetch_op s = some ((0x2, n1, n2, n3), { s with pc := (s.pc + 2) % 65536 }) := by
      unfold fetch_op
      rw [if_pos hpc, hop]
    have hs2 : step rnd s =
        decode_op rnd (0x2, n1, n2, n3) { s with pc := (s.pc + 2) % 65536 } := by
      unfold step
      rw [hf]
    have hd : decode_op rnd (0x2, n1, n2, n3) ({ s with pc := (s.pc + 2) % 65536 } : Cpu) =
        some { s with pc := n3u16 n1 n2 n3,
                      stack := Function.update s.stack s.sp ((s.pc + 2) % 65536),
                      sp := s.sp + 1 } := by
      rw [decode_call_eq,
        if_pos (show ({ s with pc := (s.pc + 2) % 65536 } : Cpu).sp < 24 from hsp)]
    rw [hs2, hd]
    exact ⟨_, rfl, Function.update_same _ _ _, rfl, rfl,
      fun j hj => Function.update_noteq hj _ _⟩
  · rw [decode_ret_eq]
    exact if_congr (by omega) rfl rfl

/-- Claim C7, witness: a rom whose first instruction is `0x22 0x46`
(call 0x246) executed from the initial state pushes 0x202 and jumps to
0x246; the decode-level call/return characterizations instantiated at
the initial state (depth 0). -/
theorem C7_stack_call_return_witness :
    (∃ s', step 0 (load_rom [0x22, 0x46] Cpu.new) = some s' ∧
      s'.stack (load_rom [0x22, 0x46] Cpu.new).sp =
        ((load_rom [0x22, 0x46] Cpu.new).pc + 2) % 65536 ∧
      s'.sp = (load_rom [0x22, 0x46] Cpu.new).sp + 1 ∧
      s'.pc = n3u16 2 4 6 ∧
      (∀ j, j ≠ (load_rom [0x22, 0x46] Cpu.new).sp →
        s'.stack j = (load_rom [0x22, 0x46] Cpu.new).stack j)) ∧
    (decode_op 0 (0x2, 2, 4, 6) Cpu.new =
      if Cpu.new.sp < 24 then
        some { Cpu.new with stack := Function.update Cpu.new.stack Cpu.new.sp Cpu.new.pc,
                            sp := Cpu.new.sp + 1, pc := n3u16 2 4 6 }
      else none) ∧
    (decode_op 0 (0x0, 0x0, 0xE, 0xE) Cpu.new =
      if 1 ≤ Cpu.new.sp ∧ Cpu.new.sp ≤ 24 then
        some { Cpu.new with sp := Cpu.new.sp - 1, pc := Cpu.new.stack (Cpu.new.sp - 1) }
      else none) :=
  C7_stack_call_return 0 2 4 6 (load_rom [0x22, 0x46] Cpu.new) Cpu.new
    (by decide) (by decide) (by decide)

/-- Claim C10: every memory access computed from the program counter
or the index register is guarded rather than wrapping: fetch aborts
exactly when `pc ≥ 4095`; `Dxyn` aborts exactly when `i + n > 4096`;
`Fx33` aborts exactly when `i + 2 ≥ 4096`; `Fx55`/`Fx65` abort exactly
when `i + x ≥ 4096`.  When the computed addresses lie below 4096 the
operation succeeds and reads or writes exactly the addressed bytes. -/
theorem C10_bounds_checks (rnd vx vy n : Nat) (s : Cpu) :
    (fetch_op s = none ↔ 4095 ≤ s.pc) ∧
    (fetch_op s = if s.pc + 1 < 4096 then
        some (nibblesAt s, { s with pc := (s.pc + 2) % 65536 }) else none) ∧
    (decode_op rnd (0xD, vx, vy, n) s = none ↔ 4096 < s.i + n) ∧
    (decode_op rnd (0xD, vx, vy, n) s = if s.i + n ≤ 4096 then
        some { s with v := Function.update s.v 15 (drawRun s.ram s.i (s.v vx) (s.v vy) n s.vram).1,
                      vram := (drawRun s.ram s.i (s.v vx) (s.v vy) n s.vram).2 }
      else none) ∧
    (decode_op rnd (0xF, vx, 0x3, 0x3) s = none ↔ 4096 ≤ s.i + 2) ∧
    (s.i + 2 < 4096 → ∃ s', decode_op rnd (0xF, vx, 0x3, 0x3) s = some s' ∧
      s'.ram s.i = s.v vx / 100 ∧ s'.ram (s.i + 1) = s.v vx / 10 % 10 ∧
      s'.ram (s.i + 2) = s.v vx % 10 ∧
      (∀ a, a ≠ s.i → a ≠ s.i + 1 → a ≠ s.i + 2 → s'.ram a = s.ram a) ∧
      s'.v = s.v ∧ s'.pc = s.pc ∧ s'.i = s.i) ∧
    (decode_op rnd (0xF, vx, 0x5, 0x5) s = none ↔ 4096 ≤ s.i + vx) ∧
    (s.i + vx < 4096 → decode_op rnd (0xF, vx, 0x5, 0x5) s =
      some { s with ram := fun a =>
        if s.i ≤ a ∧ a ≤ s.i + vx then s.v (a - s.i) else s.ram a }) ∧
    (decode_op rnd (0xF, vx, 0x6, 0x5) s = none ↔ 4096 ≤ s.i + vx) ∧
    (s.i + vx < 4096 → decode_op rnd (0xF, vx, 0x6, 0x5) s =
      some { s with v := fun r => if r ≤ vx then s.ram (s.i + r) else s.v r }) := by
  refine ⟨?_, rfl, ?_, rfl, ?_, ?_, ?_, ?_, ?_, ?_⟩
  · unfold fetch_op
    split_ifs <;> simp <;> omega
  · show (if s.i + n ≤ 4096 then some _ else none) = none ↔ _
    split_ifs <;> simp <;> omega
  · show (if s.i < 4096 ∧ (s.i + 1) % 65536 < 4096 ∧ (s.i + 2) % 65536 < 4096 then
        some _ else none) = none ↔ _
    split_ifs <;> simp <;> omega
  · intro h
    have e1 : (s.i + 1) % 65536 = s.i + 1 := Nat.mod_eq_of_lt (by omega)
    have e2 : (s.i + 2) % 65536 = s.i + 2 := Nat.mod_eq_of_lt (by omega)
    have hd : decode_op rnd (0xF, vx, 0x3, 0x3) s =
        some { s with ram :=
          Function.update (Function.update (Function.update s.ram s.i (s.v vx / 100))
            ((s.i + 1) % 65536) (s.v vx / 10 % 10)) ((s.i + 2) % 65536) (s.v vx % 10) } := by
      rw [decode_f33_eq, if_pos (by omega)]
    refine ⟨_, hd, ?_, ?_, ?_, ?_, rfl, rfl, rfl⟩
    · show Function.update (Function.update (Function.update s.ram s.i (s.v vx / 100))
          ((s.i + 1) % 65536) (s.v vx / 10 % 10)) ((s.i + 2) % 65536) (s.v vx % 10) s.i =
        s.v vx / 100
      rw [e1, e2, Function.update_noteq (show s.i ≠ s.i + 2 by omega),
        Function.update_noteq (show s.i ≠ s.i + 1 by omega), Function.update_same]
    · show Function.update (Function.update (Function.update s.ram s.i (s.v vx / 100))
          ((s.i + 1) % 65536) (s.v vx / 10 % 10)) ((s.i + 2) % 65536) (s.v vx % 10) (s.i + 1) =
        s.v vx / 10 % 10
      rw [e1, e2, Function.update_noteq (show s.i + 1 ≠ s.i + 2 by omega),
        Function.update_same]
    · show Function.update (Function.update (Function.update s.ram s.i (s.v vx / 100))
          ((s.i + 1) % 65536) (s.v vx / 10 % 10)) ((s.i + 2) % 65536) (s.v vx % 10) (s.i + 2) =
        s.v vx % 10
      rw [e1, e2, Function.update_same]
    · intro a h1 h2 h3
      show Function.update (Function.update (Function.update s.ram s.i (s.v vx / 100))
          ((s.i + 1) % 65536) (s.v vx / 10 % 10)) ((s.i + 2) % 65536) (s.v vx % 10) a =
        s.ram a
      rw [e1, e2, Function.update_noteq h3, Function.update_noteq h2,
        Function.update_noteq h1]
  · show (if s.i + vx < 4096 then some _ else none) = none ↔ _
    split_ifs <;> simp <;> omega
  · intro h
    show (if s.i + vx < 4096 then some _ else none) = some _
    rw [if_pos h]
  · show (if s.i + vx < 4096 then some _ else none) = none ↔ _
    split_ifs <;> simp <;> omega
  · intro h
    show (if s.i + vx < 4096 then some _ else none) = some _
    rw [if_pos h]

/-- Bit case analysis for `|||` on 0/1 values. -/
theorem lorBits (a b : Nat) (ha : a ≤ 1) (hb : b ≤ 1) :
    a ||| b ≤ 1 ∧ (a ||| b = 1 ↔ a = 1 ∨ b = 1) := by
  interval_cases a <;> interval_cases b <;> decide

/-- Bit case analysis for `&&&` on 0/1 values. -/
theorem andBits (a b : Nat) (ha : a ≤ 1) (hb : b ≤ 1) :
    a &&& b ≤ 1 ∧ (a &&& b = 1 ↔ a = 1 ∧ b = 1) := by
  interval_cases a <;> interval_cases b <;> decide

/-- Bit case analysis for `^^^` on 0/1 values. -/
theorem xorBits (a b : Nat) (ha : a ≤ 1) (hb : b ≤ 1) : a ^^^ b ≤ 1 := by
  interval_cases a <;> interval_cases b <;> decide

/-- A sprite bit is a single bit. -/
theorem spriteBit_le_one (ram : Nat → Nat) (i h w : Nat) : spriteBit ram i h w ≤ 1 :=
  Nat.and_le_right

/-- `listOr` of single bits is a single bit. -/
theorem listOr_le_one (L : List Nat) (h : ∀ a ∈ L, a ≤ 1) : listOr L ≤ 1 := by
  induction L with
  | nil => exact Nat.zero_le 1
  | cons a T ih =>
    show a ||| listOr T ≤ 1
    exact (lorBits a (listOr T) (h a (List.mem_cons_self _ _))
      (ih fun b hb => h b (List.mem_cons_of_mem _ hb))).1

/-- `listOr` of single bits is 1 exactly when some entry is 1. -/
theorem listOr_eq_one (L : List Nat) (h : ∀ a ∈ L, a ≤ 1) :
    listOr L = 1 ↔ ∃ a ∈ L, a = 1 := by
  induction L with
  | nil => simp [listOr]
  | cons a T ih =>
    have hT : ∀ b ∈ T, b ≤ 1 := fun b hb => h b (List.mem_cons_of_mem _ hb)
    have hb := lorBits a (listOr T) (h a (List.mem_cons_self _ _)) (listOr_le_one T hT)
    show a ||| listOr T = 1 ↔ ∃ b ∈ a :: T, b = 1
    constructor
    · intro h1
      rcases hb.2.mp h1 with ha | hTl
      · exact ⟨a, List.mem_cons_self _ _, ha⟩
      · obtain ⟨b, hbm, hb1⟩ := (ih hT).mp hTl
        exact ⟨b, List.mem_cons_of_mem _ hbm, hb1⟩
    · rintro ⟨b, hbm, hb1⟩
      rcases List.mem_cons.mp hbm with rfl | hbm'
      · exact hb.2.mpr (Or.inl hb1)
      · exact hb.2.mpr (Or.inr ((ih hT).mpr ⟨b, hbm', hb1⟩))

/-- Positions the draw loop never writes keep their pixel value. -/
theorem drawFold_untouched (ram : Nat → Nat) (i x y : Nat) :
    ∀ (L : List (Nat × Nat)) (acc : Nat × (Nat → Nat)) (q : Nat),
      (∀ hw ∈ L, drawPos x y hw.1 hw.2 ≠ q) →
      (L.foldl (drawStep ram i x y) acc).2 q = acc.2 q := by
  intro L
  induction L with
  | nil => intro acc q _; rfl
  | cons hw0 T ih =>
    intro acc q h
    rw [List.foldl_cons, ih _ q (fun hw hm => h hw (List.mem_cons_of_mem _ hm))]
    show Function.update acc.2 (drawPos x y hw0.1 hw0.2)
      (acc.2 (drawPos x y hw0.1 hw0.2) ^^^ spriteBit ram i hw0.1 hw0.2) q = acc.2 q
    exact Function.update_noteq (Ne.symm (h hw0 (List.mem_cons_self _ _))) _ _

/-- When the written positions are pairwise distinct, each written
position ends as its start value xor its sprite bit. -/
theorem drawFold_touched (ram : Nat → Nat) (i x y : Nat) :
    ∀ (L : List (Nat × Nat)) (acc : Nat × (Nat → Nat)),
      ((L.map fun hw => drawPos x y hw.1 hw.2).Nodup) →
      ∀ hw ∈ L, (L.foldl (drawStep ram i x y) acc).2 (drawPos x y hw.1 hw.2) =
        acc.2 (drawPos x y hw.1 hw.2) ^^^ spriteBit ram i hw.1 hw.2 := by
  intro L
  induction L with
  | nil => intro acc _ hw hmem; cases hmem
  | cons hw0 T ih =>
    intro acc hnd hw hmem
    rw [List.map_cons, List.nodup_cons] at hnd
    rw [List.foldl_cons]
    rcases List.mem_cons.mp hmem with heq | hmem'
    · subst heq
      have hp0 : ∀ hw' ∈ T, drawPos x y hw'.1 hw'.2 ≠ drawPos x y hw.1 hw.2 := by
        intro hw' hm' heq'
        exact hnd.1 (List.mem_map.mpr ⟨hw', hm', heq'⟩)
      rw [drawFold_untouched ram i x y T _ _ hp0]
      show Function.update acc.2 (drawPos x y hw.1 hw.2)
        (acc.2 (drawPos x y hw.1 hw.2) ^^^ spriteBit ram i hw.1 hw.2)
        (drawPos x y hw.1 hw.2) = _
      rw [Function.update_same]
    · have hne : drawPos x y hw.1 hw.2 ≠ drawPos x y hw0.1 hw0.2 := by
        intro heq'
        exact hnd.1 (List.mem_map.mpr ⟨hw, hmem', heq'.symm ▸ rfl⟩)
      rw [ih _ hnd.2 hw hmem']
      show Function.update acc.2 (drawPos x y hw0.1 hw0.2)
        (acc.2 (drawPos x y hw0.1 hw0.2) ^^^ spriteBit ram i hw0.1 hw0.2)
        (drawPos x y hw.1 hw.2) ^^^ spriteBit ram i hw.1 hw.2 = _
      rw [Function.update_noteq hne]

/-- When the written positions are pairwise distinct, the collision
flag accumulated by the loop is the or of the collision terms taken at
the start pixel values. -/
theorem drawFold_flag (ram : Nat → Nat) (i x y : Nat) :
    ∀ (L : List (Nat × Nat)) (acc : Nat × (Nat → Nat)),
      ((L.map fun hw => drawPos x y hw.1 hw.2).Nodup) →
      (L.foldl (drawStep ram i x y) acc).1 =
        acc.1 ||| listOr (L.map fun hw =>
          acc.2 (drawPos x y hw.1 hw.2) &&& spriteBit ram i hw.1 hw.2) := by
  intro L
  induction L with
  | nil => intro acc _; exact (Nat.or_zero _).symm
  | cons hw0 T ih =>
    intro acc hnd
    rw [List.map_cons, List.nodup_cons] at hnd
    rw [List.foldl_cons, ih _ hnd.2]
    have hmapeq : (T.map fun hw =>
        (drawStep ram i x y acc hw0).2 (drawPos x y hw.1 hw.2) &&& spriteBit ram i hw.1 hw.2) =
        T.map fun hw => acc.2 (drawPos x y hw.1 hw.2) &&& spriteBit ram i hw.1 hw.2 := by
      refine List.map_congr_left fun hw hm => ?_
      have hne : drawPos x y hw.1 hw.2 ≠ drawPos x y hw0.1 hw0.2 := by
        intro heq'
        exact hnd.1 (List.mem_map.mpr ⟨hw, hm, heq'.symm ▸ rfl⟩)
      show Function.update acc.2 (drawPos x y hw0.1 hw0.2)
        (acc.2 (drawPos x y hw0.1 hw0.2) ^^^ spriteBit ram i hw0.1 hw0.2)
        (drawPos x y hw.1 hw.2) &&& spriteBit ram i hw.1 hw.2 = _
      rw [Function.update_noteq hne]
    rw [hmapeq]
    show (acc.1 ||| (acc.2 (drawPos x y hw0.1 hw0.2) &&& spriteBit ram i hw0.1 hw0.2)) |||
        listOr (T.map fun hw => acc.2 (drawPos x y hw.1 hw.2) &&& spriteBit ram i hw.1 hw.2) = _
    rw [Nat.lor_assoc]
    rfl

/-- Membership in the draw loop's iteration sequence. -/
theorem hwPairs_mem (n h w : Nat) : (h, w) ∈ hwPairs n ↔ h < n ∧ w < 8 := by
  simp [hwPairs]

/-- For sprite heights up to 32 the positions written by the draw loop
are pairwise distinct: columns differ within a row (w < 8 ≤ 64) and
rows differ across sprite lines (h < n ≤ 32). -/
theorem hwPairs_pos_nodup (x y n : Nat) (hn : n ≤ 32) :
    ((hwPairs n).map fun hw => drawPos x y hw.1 hw.2).Nodup := by
  have hpairs : (hwPairs n).Nodup := by
    refine List.nodup_flatMap.mpr ⟨fun h _ => ?_, ?_⟩
    · exact (List.nodup_range 8).map fun w₁ w₂ hww => by simpa using hww
    · refine ((List.nodup_range n).imp ?_)
      intro a b hab p hp1 hp2
      simp only [List.mem_map, List.mem_range] at hp1 hp2
      obtain ⟨w1, _, rfl⟩ := hp1
      obtain ⟨w2, _, heq⟩ := hp2
      exact hab (by injection heq.symm)
  refine hpairs.map_on ?_
  intro hw hmem hw' hmem' heq
  obtain ⟨h, w⟩ := hw
  obtain ⟨h', w'⟩ := hw'
  rw [hwPairs_mem] at hmem hmem'
  unfold drawPos at heq
  simp only [Prod.mk.injEq]
  constructor <;> omega

/-- Reduction of the `Dxyn` (draw) branch of `decode_op`. -/
theorem decode_draw_eq (rnd vx vy n : Nat) (s : Cpu) :
    decode_op rnd (0xD, vx, vy, n) s =
      if s.i + n ≤ 4096 then
        some { s with v := Function.update s.v 15 (drawRun s.ram s.i (s.v vx) (s.v vy) n s.vram).1,
                      vram := (drawRun s.ram s.i (s.v vx) (s.v vy) n s.vram).2 }
      else none := rfl

/-- Pointwise characterization of the `Dxyn` loop for sprite heights
up to 32: each target pixel is xored with its sprite bit, all other
pixels are untouched, and the collision flag is a single bit that is 1
exactly when some target pixel was set and its sprite bit is set. -/
theorem drawRun_spec (ram vram : Nat → Nat) (i x y n : Nat) (hn : n ≤ 32) :
    (∀ h w, h < n → w < 8 → (drawRun ram i x y n vram).2 (drawPos x y h w) =
        vram (drawPos x y h w) ^^^ spriteBit ram i h w) ∧
    (∀ q, (∀ h w, h < n → w < 8 → drawPos x y h w ≠ q) →
        (drawRun ram i x y n vram).2 q = vram q) ∧
    ((∀ p, vram p ≤ 1) → ((drawRun ram i x y n vram).1 = 1 ↔
        ∃ h w, h < n ∧ w < 8 ∧ vram (drawPos x y h w) = 1 ∧ spriteBit ram i h w = 1)) ∧
    ((∀ p, vram p ≤ 1) → (drawRun ram i x y n vram).1 ≤ 1) := by
  have hnd := hwPairs_pos_nodup x y n hn
  have hterm : ∀ hv : ∀ p, vram p ≤ 1,
      ∀ a ∈ (hwPairs n).map fun hw => vram (drawPos x y hw.1 hw.2) &&& spriteBit ram i hw.1 hw.2,
      a ≤ 1 := by
    intro hv a ham
    obtain ⟨hw, _, rfl⟩ := List.mem_map.mp ham
    exact le_trans Nat.and_le_left (hv _)
  have hflag : (drawRun ram i x y n vram).1 =
      listOr ((hwPairs n).map fun hw =>
        vram (drawPos x y hw.1 hw.2) &&& spriteBit ram i hw.1 hw.2) := by
    unfold drawRun
    rw [drawFold_flag ram i x y (hwPairs n) (0, vram) hnd]
    exact Nat.zero_or _
  refine ⟨?_, ?_, ?_, ?_⟩
  · intro h w hh hw8
    exact drawFold_touched ram i x y (hwPairs n) (0, vram) hnd (h, w)
      ((hwPairs_mem n h w).mpr ⟨hh, hw8⟩)
  · intro q hq
    refine drawFold_untouched ram i x y (hwPairs n) (0, vram) q ?_
    intro hw hm
    obtain ⟨h, w⟩ := hw
    rw [hwPairs_mem] at hm
    exact hq h w hm.1 hm.2
  · intro hv
    rw [hflag, listOr_eq_one _ (hterm hv)]
    constructor
    · rintro ⟨a, ham, ha1⟩
      obtain ⟨⟨h, w⟩, hm, rfl⟩ := List.mem_map.mp ham
      rw [hwPairs_mem] at hm
      have hand := (andBits (vram (drawPos x y h w)) (spriteBit ram i h w)
        (hv _) (spriteBit_le_one ram i h w)).2.mp ha1
      exact ⟨h, w, hm.1, hm.2, hand.1, hand.2⟩
    · rintro ⟨h, w, hh, hw8, hv1, hs1⟩
      refine ⟨vram (drawPos x y h w) &&& spriteBit ram i h w,
        List.mem_map.mpr ⟨(h, w), (hwPairs_mem n h w).mpr ⟨hh, hw8⟩, rfl⟩, ?_⟩
      rw [hv1, hs1]
      decide
  · intro hv
    rw [hflag]
    exact listOr_le_one _ (hterm hv)

/-- Execution of the `Dxyn` branch of `decode_op` under its bounds
guard: the result state keeps every field except `v` (updated at index
15 with the collision flag) and `vram` (the loop's final buffer). -/
theorem drawDecode_spec (rnd vx vy n : Nat) (s : Cpu) (hi : s.i + n ≤ 4096) :
    decode_op rnd (0xD, vx, vy, n) s =
      some { s with v := Function.update s.v 15 (drawRun s.ram s.i (s.v vx) (s.v vy) n s.vram).1,
                    vram := (drawRun s.ram s.i (s.v vx) (s.v vy) n s.vram).2 } := by
  rw [decode_draw_eq, if_pos hi]

/-- Claim C3: executing `Dxyn` (with its ram read in bounds and a 0/1
display buffer) xors each of the n sprite bytes' 8 MSB-first bits into
the pixel at column `(x+w) mod 64`, row `(y+h) mod 32`, leaves every
other pixel untouched, and sets register 15 to 1 iff some pixel
transitioned from set to unset (old pixel 1 and sprite bit 1), else to
0 (the flag is a single bit). -/
theorem C3_draw_sprite (rnd vx vy n : Nat) (s : Cpu) (hn : n < 16)
    (hi : s.i + n ≤ 4096) (hv : ∀ p, s.vram p ≤ 1) :
    ∃ s', decode_op rnd (0xD, vx, vy, n) s = some s' ∧
      (∀ h w, h < n → w < 8 → s'.vram (drawPos (s.v vx) (s.v vy) h w) =
          s.vram (drawPos (s.v vx) (s.v vy) h w) ^^^ spriteBit s.ram s.i h w) ∧
      (∀ q, (∀ h w, h < n → w < 8 → drawPos (s.v vx) (s.v vy) h w ≠ q) →
          s'.vram q = s.vram q) ∧
      (s'.v 15 = 1 ↔ ∃ h w, h < n ∧ w < 8 ∧
          s.vram (drawPos (s.v vx) (s.v vy) h w) = 1 ∧ spriteBit s.ram s.i h w = 1) ∧
      s'.v 15 ≤ 1 ∧
      (∀ r, r ≠ 15 → s'.v r = s.v r) ∧
      s'.ram = s.ram ∧ s'.pc = s.pc ∧ s'.i = s.i := by
  obtain ⟨h1, h2, h3, h4⟩ := drawRun_spec s.ram s.vram s.i (s.v vx) (s.v vy) n (by omega)
  refine ⟨_, drawDecode_spec rnd vx vy n s hi, h1, h2, ?_, ?_, ?_, rfl, rfl, rfl⟩
  · show Function.update s.v 15 (drawRun s.ram s.i (s.v vx) (s.v vy) n s.vram).1 15 = 1 ↔ _
    rw [Function.update_same]
    exact h3 hv
  · show Function.update s.v 15 (drawRun s.ram s.i (s.v vx) (s.v vy) n s.vram).1 15 ≤ 1
    rw [Function.update_same]
    exact h4 hv
  · intro r hr
    show Function.update s.v 15 (drawRun s.ram s.i (s.v vx) (s.v vy) n s.vram).1 r = s.v r
    exact Function.update_noteq hr _ _

/-- Claim C3, witness: drawing the 5-byte font glyph 0 (ram bytes 0..4
of the fresh state) at the origin of the blank display. -/
theorem C3_draw_sprite_witness :
    ∃ s', decode_op 0 (0xD, 0, 1, 5) Cpu.new = some s' ∧
      (∀ h w, h < 5 → w < 8 → s'.vram (drawPos (Cpu.new.v 0) (Cpu.new.v 1) h w) =
          Cpu.new.vram (drawPos (Cpu.new.v 0) (Cpu.new.v 1) h w) ^^^
            spriteBit Cpu.new.ram Cpu.new.i h w) ∧
      (∀ q, (∀ h w, h < 5 → w < 8 → drawPos (Cpu.new.v 0) (Cpu.new.v 1) h w ≠ q) →
          s'.vram q = Cpu.new.vram q) ∧
      (s'.v 15 = 1 ↔ ∃ h w, h < 5 ∧ w < 8 ∧
          Cpu.new.vram (drawPos (Cpu.new.v 0) (Cpu.new.v 1) h w) = 1 ∧
          spriteBit Cpu.new.ram Cpu.new.i h w = 1) ∧
      s'.v 15 ≤ 1 ∧
      (∀ r, r ≠ 15 → s'.v r = Cpu.new.v r) ∧
      s'.ram = Cpu.new.ram ∧ s'.pc = Cpu.new.pc ∧ s'.i = Cpu.new.i :=
  C3_draw_sprite 0 0 1 5 Cpu.new (by decide) (by decide) (fun _ => Nat.zero_le 1)

/-- Claim C4: drawing the same sprite twice in succession (same sprite
bytes, index register and coordinates — the coordinate registers are
not register 15, so the first draw's flag write does not disturb them)
restores the display buffer pixel for pixel, and the second draw sets
register 15 to 1 whenever the first draw set at least one pixel
(old pixel 0, sprite bit 1). -/
theorem C4_draw_involutive (rnd rnd2 vx vy n : Nat) (s : Cpu) (hx : vx ≠ 15) (hy : vy ≠ 15)
    (hn : n < 16) (hi : s.i + n ≤ 4096) (hv : ∀ p, s.vram p ≤ 1) :
    ∃ s1 s2, decode_op rnd (0xD, vx, vy, n) s = some s1 ∧
      decode_op rnd2 (0xD, vx, vy, n) s1 = some s2 ∧
      (∀ q, s2.vram q = s.vram q) ∧
      ((∃ h w, h < n ∧ w < 8 ∧ s.vram (drawPos (s.v vx) (s.v vy) h w) = 0 ∧
          spriteBit s.ram s.i h w = 1) → s2.v 15 = 1) := by
  obtain ⟨h1, h2, h3, h4⟩ := drawRun_spec s.ram s.vram s.i (s.v vx) (s.v vy) n (by omega)
  have hd1 := drawDecode_spec rnd vx vy n s hi
  have hv1 : ∀ p, (drawRun s.ram s.i (s.v vx) (s.v vy) n s.vram).2 p ≤ 1 := by
    intro p
    by_cases hp : ∃ h w, h < n ∧ w < 8 ∧ drawPos (s.v vx) (s.v vy) h w = p
    · obtain ⟨h, w, hh, hw8, hpos⟩ := hp
      rw [← hpos, h1 h w hh hw8]
      exact xorBits _ _ (hv _) (spriteBit_le_one s.ram s.i h w)
    · push_neg at hp
      rw [h2 p hp]
      exact hv p
  obtain ⟨g1, g2, g3, _⟩ := drawRun_spec s.ram
    (drawRun s.ram s.i (s.v vx) (s.v vy) n s.vram).2 s.i (s.v vx) (s.v vy) n (by omega)
  have hx1 : ({ s with
      v := Function.update s.v 15 (drawRun s.ram s.i (s.v vx) (s.v vy) n s.vram).1,
      vram := (drawRun s.ram s.i (s.v vx) (s.v vy) n s.vram).2 } : Cpu).v vx = s.v vx :=
    Function.update_noteq hx _ _
  have hy1 : ({ s with
      v := Function.update s.v 15 (drawRun s.ram s.i (s.v vx) (s.v vy) n s.vram).1,
      vram := (drawRun s.ram s.i (s.v vx) (s.v vy) n s.vram).2 } : Cpu).v vy = s.v vy :=
    Function.update_noteq hy _ _
  have hd2 := drawDecode_spec rnd2 vx vy n
    { s with v := Function.update s.v 15 (drawRun s.ram s.i (s.v vx) (s.v vy) n s.vram).1,
             vram := (drawRun s.ram s.i (s.v vx) (s.v vy) n s.vram).2 }
    (show s.i + n ≤ 4096 from hi)
  rw [hx1, hy1] at hd2
  refine ⟨_, _, hd1, hd2, ?_, ?_⟩
  · intro q
    show (drawRun s.ram s.i (s.v vx) (s.v vy) n
      (drawRun s.ram s.i (s.v vx) (s.v vy) n s.vram).2).2 q = s.vram q
    by_cases hp : ∃ h w, h < n ∧ w < 8 ∧ drawPos (s.v vx) (s.v vy) h w = q
    · obtain ⟨h, w, hh, hw8, hpos⟩ := hp
      rw [← hpos, g1 h w hh hw8, h1 h w hh hw8, Nat.xor_assoc, Nat.xor_self, Nat.xor_zero]
    · push_neg at hp
      rw [g2 q hp, h2 q hp]
  · rintro ⟨h, w, hh, hw8, hv0, hs1b⟩
    show Function.update (Function.update s.v 15 (drawRun s.ram s.i (s.v vx) (s.v vy) n s.vram).1)
      15 (drawRun s.ram s.i (s.v vx) (s.v vy) n
        (drawRun s.ram s.i (s.v vx) (s.v vy) n s.vram).2).1 15 = 1
    rw [Function.update_same]
    refine (g3 hv1).mpr ⟨h, w, hh, hw8, ?_, hs1b⟩
    rw [h1 h w hh hw8, hv0, hs1b]
    decide

/-- Claim C4, witness: drawing the font glyph 0 twice at the origin of
the blank display restores the blank buffer, and because the first
draw set pixels the second draw reports a collision. -/
theorem C4_draw_involutive_witness :
    ∃ s1 s2, decode_op 0 (0xD, 0, 1, 5) Cpu.new = some s1 ∧
      decode_op 0 (0xD, 0, 1, 5) s1 = some s2 ∧
      (∀ q, s2.vram q = Cpu.new.vram q) ∧
      ((∃ h w, h < 5 ∧ w < 8 ∧ Cpu.new.vram (drawPos (Cpu.new.v 0) (Cpu.new.v 1) h w) = 0 ∧
          spriteBit Cpu.new.ram Cpu.new.i h w = 1) → s2.v 15 = 1) :=
  C4_draw_involutive 0 0 0 1 5 Cpu.new (by decide) (by decide) (by decide) (by decide)
    (fun _ => Nat.zero_le 1)

set_option maxHeartbeats 2000000 in
/-- Every decode branch other than `Fx15`/`Fx18` leaves both timers
exactly unchanged. -/
theorem decode_delay_sound (rnd : Nat) (op : Nat × Nat × Nat × Nat) (s s' : Cpu)
    (hd : decode_op rnd op s = some s') (ht : isTimerSetB op = false) :
    s'.delay_timer = s.delay_timer ∧ s'.sound_timer = s.sound_timer := by
  unfold decode_op at hd
  split at hd
  repeat' split at hd
  all_goals try first
    | exact Option.noConfusion hd
    | (injection hd with h; subst h; exact ⟨rfl, rfl⟩)
  all_goals simp [isTimerSetB] at ht

set_option maxHeartbeats 2000000 in
/-- Every decode branch preserves the program-counter alignment
invariant, provided the instruction's explicit control-transfer
targets are even: fetch/skip advances add 2, calls push the (even) pc,
returns pop an (even by the invariant) saved address. -/
theorem decode_pcInv (rnd : Nat) (op : Nat × Nat × Nat × Nat) (s s' : Cpu)
    (hInv : pcInv s) (hT : opTargetsEven op (s.v 0)) (hd : decode_op rnd op s = some s') :
    pcInv s' := by
  obtain ⟨hpc, hst⟩ := hInv
  unfold decode_op at hd
  split at hd
  repeat' split at hd
  all_goals try exact Option.noConfusion hd
  all_goals injection hd with h
  all_goals subst h
  all_goals try exact ⟨hpc, hst⟩
  all_goals try exact ⟨(show (s.pc + 2) % 65536 % 2 = 0 by omega), hst⟩
  all_goals try exact ⟨hT, hst⟩
  · exact ⟨hst (s.sp - 1) (by omega), fun j hj => hst j (by
      have hj2 : j < s.sp - 1 := hj
      omega)⟩
  · refine ⟨hT, fun j hj => ?_⟩
    have hj2 : j < s.sp + 1 := hj
    show Function.update s.stack s.sp s.pc j % 2 = 0
    by_cases hje : j = s.sp
    · subst hje
      rw [Function.update_same]
      exact hpc
    · rw [Function.update_noteq hje]
      exact hst j (by omega)

/-- Claim C6 (amended): the freshly constructed state (any rom loaded
at 0x200) satisfies the alignment invariant, and a fetch-decode-execute
step preserves it whenever the executed instruction's explicit
control-transfer targets (`1nnn`/`2nnn` target, `Bnnn` target plus
register 0) are even; with an odd jump target the invariant is lost,
so the claim's "arbitrary operand values" does not hold. -/
theorem C6_pc_alignment_amended (rom : List Nat) (rnd : Nat) (s s' : Cpu)
    (hInv : pcInv s) (hT : opTargetsEven (nibblesAt s) (s.v 0))
    (hstep : step rnd s = some s') :
    pcInv (load_rom rom Cpu.new) ∧ pcInv s' := by
  constructor
  · exact ⟨(show (512 : Nat) % 2 = 0 from rfl), fun j hj => absurd hj (Nat.not_lt_zero j)⟩
  · unfold step at hstep
    cases hf : fetch_op s with
    | none =>
      rw [hf] at hstep
      exact Option.noConfusion hstep
    | some p =>
      rw [hf] at hstep
      obtain ⟨opn, sf⟩ := p
      have hd : decode_op rnd opn sf = some s' := hstep
      unfold fetch_op at hf
      split_ifs at hf
      · injection hf with h
        injection h with h1 h2
        subst h1
        subst h2
        refine decode_pcInv rnd (nibblesAt s) { s with pc := (s.pc + 2) % 65536 } s'
          ⟨?_, ?_⟩ hT hd
        · show (s.pc + 2) % 65536 % 2 = 0
          have := hInv.1
          omega
        · exact hInv.2

/-- Claim C6, counterexample to the claim as stated: the two-byte
program `0x12 0x01` (jump to 0x201) executed from the initial state
leaves the program counter at the odd address 0x201. -/
theorem C6_counterexample :
    Option.map Cpu.pc (step 0 (load_rom [0x12, 0x01] Cpu.new)) = some 0x201 ∧
    ¬ (0x201 % 2 = 0) := by
  refine ⟨by decide, by decide⟩

/-- Claim C6, witness: the clear-screen program `0x00 0xE0` executed
once from the initial state keeps the program counter even. -/
theorem C6_pc_alignment_amended_witness :
    pcInv (load_rom [] Cpu.new) ∧
    pcInv { load_rom [0x00, 0xE0] Cpu.new with pc := 514, vram := fun _ => 0 } :=
  C6_pc_alignment_amended [] 0 (load_rom [0x00, 0xE0] Cpu.new)
    { load_rom [0x00, 0xE0] Cpu.new with pc := 514, vram := fun _ => 0 }
    ⟨rfl, fun j hj => absurd hj (Nat.not_lt_zero j)⟩
    True.intro
    rfl

/-- `update_timers` decrements each timer by exactly 1 when nonzero
and leaves it unchanged at zero (no wrap below zero). -/
theorem update_timers_eq (u : Cpu) :
    (update_timers u).delay_timer =
      (if 0 < u.delay_timer then u.delay_timer - 1 else u.delay_timer) ∧
    (update_timers u).sound_timer =
      (if 0 < u.sound_timer then u.sound_timer - 1 else u.sound_timer) := by
  by_cases h1 : 0 < u.delay_timer <;> by_cases h2 : 0 < u.sound_timer <;>
    simp [update_timers, h1, h2]

/-- One `run`-loop iteration whose instruction is not `Fx15`/`Fx18`
leaves the timers equal or decremented, never increased. -/
theorem cycle_timers (rnd timer : Nat) (s s1 : Cpu)
    (hc : cycle rnd timer s = some s1) (ht : isTimerSetB (nibblesAt s) = false) :
    s1.delay_timer ≤ s.delay_timer ∧ s1.sound_timer ≤ s.sound_timer := by
  unfold cycle at hc
  cases hs : step rnd s with
  | none =>
    rw [hs] at hc
    exact Option.noConfusion hc
  | some s2 =>
    rw [hs] at hc
    have hst2 : s2.delay_timer = s.delay_timer ∧ s2.sound_timer = s.sound_timer := by
      unfold step at hs
      cases hf : fetch_op s with
      | none =>
        rw [hf] at hs
        exact Option.noConfusion hs
      | some p =>
        rw [hf] at hs
        obtain ⟨opn, sf⟩ := p
        have hd : decode_op rnd opn sf = some s2 := hs
        unfold fetch_op at hf
        split_ifs at hf
        injection hf with h
        injection h with h1 h2
        subst h1
        subst h2
        exact decode_delay_sound rnd (nibblesAt s)
          { s with pc := (s.pc + 2) % 65536 } s2 hd ht
    injection hc with h
    subst h
    split_ifs
    · obtain ⟨e1, e2⟩ := update_timers_eq s2
      constructor
      · rw [e1, hst2.1]
        split_ifs <;> omega
      · rw [e2, hst2.2]
        split_ifs <;> omega
    · exact ⟨le_of_eq hst2.1, le_of_eq hst2.2⟩

/-- Over any number of `run`-loop iterations in which no `Fx15`/`Fx18`
executes, both timers are monotonically non-increasing. -/
theorem runLoop_timers :
    ∀ (n : Nat) (rnds : Nat → Nat) (timer : Nat) (s s' : Cpu),
      runLoop rnds timer n s = some s' → noTimerSetRunB rnds timer n s = true →
      s'.delay_timer ≤ s.delay_timer ∧ s'.sound_timer ≤ s.sound_timer := by
  intro n
  induction n with
  | zero =>
    intro rnds timer s s' hrun _
    injection hrun with h
    subst h
    exact ⟨Nat.le_refl _, Nat.le_refl _⟩
  | succ m ih =>
    intro rnds timer s s' hrun hns
    unfold runLoop at hrun
    unfold noTimerSetRunB at hns
    cases hc : cycle (rnds timer) timer s with
    | none =>
      rw [hc] at hrun
      exact Option.noConfusion hrun
    | some s1 =>
      rw [hc] at hrun hns
      simp only [Bool.and_eq_true, Bool.not_eq_true'] at hns
      have h1 := cycle_timers (rnds timer) timer s s1 hc hns.1
      have h2 := ih rnds (timer + 1) s1 s' hrun hns.2
      exact ⟨Nat.le_trans h2.1 h1.1, Nat.le_trans h2.2 h1.2⟩

/-- Claim C8: the timer tick decrements `delay_timer` and
`sound_timer` each by exactly 1 when nonzero and leaves them unchanged
at zero (never wrapping below zero); consequently, over any stretch of
`run`-loop iterations (the tick firing on every 10th cycle as built
into `cycle`/`runLoop`) in which `Fx15`/`Fx18` never execute, both
timers are monotonically non-increasing. -/
theorem C8_timers (rnds : Nat → Nat) (timer n : Nat) (s s' u : Cpu)
    (hrun : runLoop rnds timer n s = some s')
    (hns : noTimerSetRunB rnds timer n s = true) :
    s'.delay_timer ≤ s.delay_timer ∧ s'.sound_timer ≤ s.sound_timer ∧
    (update_timers u).delay_timer =
      (if 0 < u.delay_timer then u.delay_timer - 1 else u.delay_timer) ∧
    (update_timers u).sound_timer =
      (if 0 < u.sound_timer then u.sound_timer - 1 else u.sound_timer) := by
  obtain ⟨hm1, hm2⟩ := runLoop_timers n rnds timer s s' hrun hns
  obtain ⟨e1, e2⟩ := update_timers_eq u
  exact ⟨hm1, hm2, e1, e2⟩

/-- Claim C8, witness: one iteration of the clear-screen program
`0x00 0xE0` from the initial state (timers at 0) with the tick firing
at loop counter 0. -/
theorem C8_timers_witness :
    ({ load_rom [0x00, 0xE0] Cpu.new with pc := 514, vram := fun _ => 0 } : Cpu).delay_timer ≤
      (load_rom [0x00, 0xE0] Cpu.new).delay_timer ∧
    ({ load_rom [0x00, 0xE0] Cpu.new with pc := 514, vram := fun _ => 0 } : Cpu).sound_timer ≤
      (load_rom [0x00, 0xE0] Cpu.new).sound_timer ∧
    (update_timers Cpu.new).delay_timer =
      (if 0 < Cpu.new.delay_timer then Cpu.new.delay_timer - 1 else Cpu.new.delay_timer) ∧
    (update_timers Cpu.new).sound_timer =
      (if 0 < Cpu.new.sound_timer then Cpu.new.sound_timer - 1 else Cpu.new.sound_timer) :=
  C8_timers (fun _ => 0) 0 1 (load_rom [0x00, 0xE0] Cpu.new)
    { load_rom [0x00, 0xE0] Cpu.new with pc := 514, vram := fun _ => 0 } Cpu.new
    rfl (by decide)
